import Mathlib

/-!
Verification of the precompile core (blake3 compression-round gadget,
SHA-256 message-schedule extension trace generation, Weierstrass
point-addition chip) against its natural-language specification.

The witness-generation side works on machine integers; we embed 32-bit
words as `Nat` with explicit reduction modulo `2 ^ 32`.  The
constraint-evaluation side works on symbolic field elements; we embed
it over an arbitrary commutative ring.
-/

namespace SP1

/-- The 32-bit word modulus. -/
def W32 : Nat := 2 ^ 32

/-- Rust `u32::rotate_right`: for a word `x < 2 ^ 32`, rotate the 32-bit
pattern right by `n` places (`0 ≤ n < 32`).  The low `n` bits move to the
top; arithmetically this is `x / 2 ^ n + (x mod 2 ^ n) * 2 ^ (32 - n)`. -/
def rotr32 (x n : Nat) : Nat :=
  (x % W32) / 2 ^ n + (x % W32 % 2 ^ n) * 2 ^ (32 - n)

/-- Rust `>>` on a 32-bit word: drop the low `n` bits. -/
def shr32 (x n : Nat) : Nat := (x % W32) / 2 ^ n

/-- Modelled from the spec: the Bounded Add gadget's witness generation
(`AddOperation::populate`, not under src/) — 32-bit wraparound addition. -/
def addPopulate (a b : Nat) : Nat := (a + b) % W32

/-- Modelled from the spec: the Bitwise Xor gadget's witness generation
(`XorOperation::populate`, not under src/) — bitwise xor of 32-bit words. -/
def xorPopulate (a b : Nat) : Nat := a ^^^ b

/-- Modelled from the spec: the Fixed Rotate-Right gadget's witness
generation (`FixedRotateRightOperation::populate`, not under src/) —
rotation by a compile-time-fixed bit amount. -/
def fixedRotateRightPopulate (x n : Nat) : Nat := rotr32 x n

/-- Modelled from the spec: the fixed right-shift-as-lookup gadget's
witness generation (`FixedShiftRightOperation::populate`, not under
src/). -/
def fixedShiftRightPopulate (x n : Nat) : Nat := shr32 x n

/-- Modelled from the spec: the four-way mod `2 ^ 32` addition used for the
new message word (`Add4Operation::populate`, not under src/). -/
def add4Populate (a b c d : Nat) : Nat := (a + b + c + d) % W32

/-- Modelled from the spec: the reference implementation `g_func` of the
blake3 mixing round (not under src/), transcribed from the `g`
pseudocode documented on `GOperation` in
`src/core/src/syscall/precompiles/blake3/compress/g.rs`: each
`wrapping_add` reduces modulo `2 ^ 32` immediately. -/
def g_func (input : Fin 6 → Nat) : Fin 4 → Nat :=
  let a0 := input 0
  let b0 := input 1
  let c0 := input 2
  let d0 := input 3
  let x := input 4
  let y := input 5
  let a1 := ((a0 + b0) % W32 + x) % W32
  let d1 := rotr32 (d0 ^^^ a1) 16
  let c1 := (c0 + d1) % W32
  let b1 := rotr32 (b0 ^^^ c1) 12
  let a2 := ((a1 + b1) % W32 + y) % W32
  let d2 := rotr32 (d1 ^^^ a2) 8
  let c2 := (c1 + d2) % W32
  let b2 := rotr32 (b1 ^^^ c2) 7
  ![a2, b2, c2, d2]

namespace GOperation

/-- The value computed by `GOperation::populate`
(`src/core/src/syscall/precompiles/blake3/compress/g.rs`, lines 50-97),
chaining the gadget populates in the order of the source: two adds, an
xor followed by a byte rotation by 16, an add, an xor, a fixed rotation
by 12, then the same four steps again with `y` and rotations 8 and 7.
The auxiliary lookup events and column writes are irrelevant to the
returned value and are omitted. -/
def populate (input : Fin 6 → Nat) : Fin 4 → Nat :=
  let a := input 0
  let b := input 1
  let c := input 2
  let d := input 3
  let x := input 4
  let y := input 5
  let a := addPopulate a b
  let a := addPopulate a x
  let d := xorPopulate d a
  let d := rotr32 d 16
  let c := addPopulate c d
  let b := xorPopulate b c
  let b := fixedRotateRightPopulate b 12
  let a := addPopulate a b
  let a := addPopulate a y
  let d := xorPopulate d a
  let d := rotr32 d 8
  let c := addPopulate c d
  let b := xorPopulate b c
  let b := fixedRotateRightPopulate b 7
  ![a, b, c, d]

/-- `GOperation::populate` including its terminal
`assert_eq!(result, g_func(input))`: the result is produced only when it
matches the reference implementation, otherwise generation panics
(embedded as `none`). -/
def populateChecked (input : Fin 6 → Nat) : Option (Fin 4 → Nat) :=
  let result := populate input
  if result = g_func input then some result else none

end GOperation

/-- The four-word state of the claimed half-round description. -/
structure GState where
  a : Nat
  b : Nat
  c : Nat
  d : Nat
deriving DecidableEq

/-- The claim's four-step half-round:
`a = a + b + x; d = rotr(d xor a, r1); c = c + d; b = rotr(b xor c, r2)`
with `+` the 32-bit wraparound addition. -/
def gSpecHalfRound (s : GState) (x r1 r2 : Nat) : GState :=
  let a := (s.a + s.b + x) % W32
  let d := rotr32 (s.d ^^^ a) r1
  let c := (s.c + d) % W32
  let b := rotr32 (s.b ^^^ c) r2
  ⟨a, b, c, d⟩

/-- The claim's two identical half-rounds with rotation amounts
`(16, 12)` then `(8, 7)`, fed `x` then `y`. -/
def gSpecRounds (input : Fin 6 → Nat) : Fin 4 → Nat :=
  let s1 := gSpecHalfRound ⟨input 0, input 1, input 2, input 3⟩ (input 4) 16 12
  let s2 := gSpecHalfRound s1 (input 5) 8 7
  ![s2.a, s2.b, s2.c, s2.d]

/-- The little-endian value of a four-byte word column
(`Word<T>` holds four byte lanes). -/
def wordLEValue (w : Fin 4 → Nat) : Nat :=
  w 0 + 256 * w 1 + 65536 * w 2 + 16777216 * w 3

/-- The byte-lane reindexing `Word([d[2], d[3], d[0], d[1]])` used by
`GOperation::eval` for the rotation by 16 bits (g.rs line 126). -/
def byteRotate16 (w : Fin 4 → Nat) : Fin 4 → Nat := ![w 2, w 3, w 0, w 1]

/-- The byte-lane reindexing `Word([d[1], d[2], d[3], d[0]])` used by
`GOperation::eval` for the rotation by 8 bits (g.rs line 157). -/
def byteRotate8 (w : Fin 4 → Nat) : Fin 4 → Nat := ![w 1, w 2, w 3, w 0]

/-- The final constraint of `GOperation::eval` (g.rs line 183):
`is_real * is_real * is_real - is_real * is_real * is_real`, asserted
to be zero; present only to raise the constraint degree. -/
def gDegree3Constraint {F : Type} [CommRing F] (isReal : F) : F :=
  isReal * isReal * isReal - isReal * isReal * isReal

/-- Rust `usize::next_power_of_two` on the loop of
`Nat.nextPowerOfTwo`-style doubling, written with structural fuel so
that it computes by kernel reduction: keep doubling `power` until it is
at least `n`.  For `n = 0` the result is `1`. -/
def rustNextPowerOfTwoGo : Nat → Nat → Nat → Nat
  | 0, _, power => power
  | fuel + 1, n, power => if power < n then rustNextPowerOfTwoGo fuel n (power * 2) else power

/-- Rust `usize::next_power_of_two`: the least power of two that is at
least `n` (and `1` when `n = 0`).  Fuel `n` suffices because doubling
from `1` exceeds `n` within `n` steps. -/
def rustNextPowerOfTwo (n : Nat) : Nat := rustNextPowerOfTwoGo n n 1

/-- The padded row count computed inline by `ShaExtendChip::generate_trace`
(`src/core/src/syscall/precompiles/sha256/extend/trace.rs`, lines 78-82):
`next_power_of_two`, bumped to `4` when it came out as `2` or `1`. -/
def padCount (nbRows : Nat) : Nat :=
  if rustNextPowerOfTwo nbRows = 2 ∨ rustNextPowerOfTwo nbRows = 1 then 4
  else rustNextPowerOfTwo nbRows

/-- Modelled from the spec: the Trace-Shaping helper `pad_rows` (not under
src/) pads a chip's row count to a power of two with a hard minimum of 4. -/
def padRowsTarget (nbRows : Nat) : Nat := max (rustNextPowerOfTwo nbRows) 4

/-- One `ShaExtendEvent`, reduced to the data `generate_trace` reads from
it: shard, clock, base pointer, and the **values** of the four per-round
memory reads and the per-round memory write (the prior-value/timestamp
metadata of the memory records feeds only the memory-consistency lookups,
which are outside the properties checked here). -/
structure ShaExtendEvent where
  shard : Nat
  clk : Nat
  w_ptr : Nat
  w_i_minus_15_reads : Fin 48 → Nat
  w_i_minus_2_reads : Fin 48 → Nat
  w_i_minus_16_reads : Fin 48 → Nat
  w_i_minus_7_reads : Fin 48 → Nat
  w_i_writes : Fin 48 → Nat

/-- One row of the ShaExtend trace, with the fields populated by
`ShaExtendChip::generate_trace`.  A freshly allocated row is all zeroes
(`[F::zero(); NUM_SHA_EXTEND_COLS]`); `flagIndex` records the argument
passed to `populate_flags` (modelled from the spec: the flags identify
the round index and are a function of that argument alone). -/
structure ShaExtendRow where
  flagIndex : Nat := 0
  shard : Nat := 0
  clk : Nat := 0
  w_ptr : Nat := 0
  w_i_minus_15 : Nat := 0
  w_i_minus_2 : Nat := 0
  w_i_minus_16 : Nat := 0
  w_i_minus_7 : Nat := 0
  w_i_minus_15_rr_7 : Nat := 0
  w_i_minus_15_rr_18 : Nat := 0
  w_i_minus_15_rs_3 : Nat := 0
  s0_intermediate : Nat := 0
  s0 : Nat := 0
  w_i_minus_2_rr_17 : Nat := 0
  w_i_minus_2_rr_19 : Nat := 0
  w_i_minus_2_rs_10 : Nat := 0
  s1_intermediate : Nat := 0
  s1 : Nat := 0
  s2 : Nat := 0
  w_i : Nat := 0
  is_real : Nat := 0
deriving DecidableEq, Inhabited

/-- Modelled from the spec: the reference message-schedule extension step
(sigma mixing of the words at offsets −15 and −2, then the mod `2 ^ 32`
sum with the words at offsets −16 and −7). -/
def shaReferenceExtend (wm15 wm2 wm16 wm7 : Nat) : Nat :=
  let s0 := (rotr32 wm15 7 ^^^ rotr32 wm15 18) ^^^ shr32 wm15 3
  let s1 := (rotr32 wm2 17 ^^^ rotr32 wm2 19) ^^^ shr32 wm2 10
  (wm16 + s0 + wm7 + s1) % W32

namespace ShaExtendChip

/-- The real row that `ShaExtendChip::generate_trace` pushes for round `j`
of one event (`trace.rs` lines 26-72), populating each gadget column in
source order and setting `is_real` to one. -/
def realRow (ev : ShaExtendEvent) (j : Fin 48) : ShaExtendRow :=
  let w_i_minus_15 := ev.w_i_minus_15_reads j
  let w_i_minus_15_rr_7 := fixedRotateRightPopulate w_i_minus_15 7
  let w_i_minus_15_rr_18 := fixedRotateRightPopulate w_i_minus_15 18
  let w_i_minus_15_rs_3 := fixedShiftRightPopulate w_i_minus_15 3
  let s0_intermediate := xorPopulate w_i_minus_15_rr_7 w_i_minus_15_rr_18
  let s0 := xorPopulate s0_intermediate w_i_minus_15_rs_3
  let w_i_minus_2 := ev.w_i_minus_2_reads j
  let w_i_minus_2_rr_17 := fixedRotateRightPopulate w_i_minus_2 17
  let w_i_minus_2_rr_19 := fixedRotateRightPopulate w_i_minus_2 19
  let w_i_minus_2_rs_10 := fixedShiftRightPopulate w_i_minus_2 10
  let s1_intermediate := xorPopulate w_i_minus_2_rr_17 w_i_minus_2_rr_19
  let s1 := xorPopulate s1_intermediate w_i_minus_2_rs_10
  let w_i_minus_7 := ev.w_i_minus_7_reads j
  let w_i_minus_16 := ev.w_i_minus_16_reads j
  let s2 := add4Populate w_i_minus_16 s0 w_i_minus_7 s1
  { flagIndex := j.val
    shard := ev.shard
    clk := ev.clk
    w_ptr := ev.w_ptr
    w_i_minus_15 := w_i_minus_15
    w_i_minus_2 := w_i_minus_2
    w_i_minus_16 := w_i_minus_16
    w_i_minus_7 := w_i_minus_7
    w_i_minus_15_rr_7 := w_i_minus_15_rr_7
    w_i_minus_15_rr_18 := w_i_minus_15_rr_18
    w_i_minus_15_rs_3 := w_i_minus_15_rs_3
    s0_intermediate := s0_intermediate
    s0 := s0
    w_i_minus_2_rr_17 := w_i_minus_2_rr_17
    w_i_minus_2_rr_19 := w_i_minus_2_rr_19
    w_i_minus_2_rs_10 := w_i_minus_2_rs_10
    s1_intermediate := s1_intermediate
    s1 := s1
    s2 := s2
    w_i := ev.w_i_writes j
    is_real := 1 }

/-- A padding row of the ShaExtend trace (`trace.rs` lines 83-88): a
zero row on which only `populate_flags(i)` ran, `i` being the absolute
row index. -/
def padRow (i : Nat) : ShaExtendRow := { flagIndex := i }

/-- The 48 real rows generated for the events, in event order then round
order (`trace.rs` lines 23-74). -/
def realRows (evs : List ShaExtendEvent) : List ShaExtendRow :=
  evs.flatMap fun ev => (List.finRange 48).map (realRow ev)

/-- `ShaExtendChip::generate_trace` at the level of rows: 48 real rows
per event, followed by flag-only padding rows up to the padded count. -/
def generate_trace (evs : List ShaExtendEvent) : List ShaExtendRow :=
  let rows := realRows evs
  rows ++ (List.range' rows.length (padCount rows.length - rows.length)).map padRow

end ShaExtendChip

/-- The operation selector of the big-integer field-operation gadget
(`FieldOperation` in `operations/field/field_op.rs`). -/
inductive FieldOperation where
  | Add
  | Sub
  | Mul
  | Div
deriving DecidableEq

/-- Modelled from the spec: the Big-Integer Field-Op gadget's witness
generation (`FieldOpCols::populate`, not under src/).  It returns the
canonical result in `[0, m)` of the selected operation modulo the
externally supplied modulus `m`; per the spec, `Div` is a deterministic
total function at witness-generation time (realized through the Fermat
inverse `b ^ (m - 2)`, which sends a zero divisor to a zero quotient
instead of raising an error). -/
def fieldOpPopulate (m : Nat) : FieldOperation → Nat → Nat → Nat
  | FieldOperation.Add, a, b => (a + b) % m
  | FieldOperation.Sub, a, b => (a % m + (m - b % m)) % m
  | FieldOperation.Mul, a, b => a * b % m
  | FieldOperation.Div, a, b => a * (b ^ (m - 2) % m) % m

/-- The results of the nine chained field-operation columns of the
Weierstrass-add chip, in declaration order. -/
structure WAddFieldCols where
  slope_denominator : Nat := 0
  slope_numerator : Nat := 0
  slope : Nat := 0
  slope_squared : Nat := 0
  p_x_plus_q_x : Nat := 0
  x3_ins : Nat := 0
  p_x_minus_x : Nat := 0
  y3_ins : Nat := 0
  slope_times_p_x_minus_x : Nat := 0
deriving DecidableEq, Inhabited

/-- One `ECAddEvent`, reduced to the data `generate_trace` reads from it:
shard, clock, the two pointers, the little-endian word encodings of `p`
and `q`, and the values carried by the memory records (for `p` the
post-write value). -/
structure WAddEvent where
  shard : Nat
  clk : Nat
  p_ptr : Nat
  q_ptr : Nat
  p : Fin 16 → Nat
  q : Fin 16 → Nat
  p_memory_values : Fin 16 → Nat
  q_memory_values : Fin 16 → Nat
  q_ptr_value : Nat

/-- One row of the Weierstrass-add trace, with the fields populated by
`WeierstrassAddAssignChip::generate_trace`; a freshly allocated row is
all zeroes. -/
structure WAddTraceRow where
  is_real : Nat := 0
  shard : Nat := 0
  clk : Nat := 0
  p_ptr : Nat := 0
  q_ptr : Nat := 0
  fieldCols : WAddFieldCols := {}
  p_access_values : Fin 16 → Nat := fun _ => 0
  q_access_values : Fin 16 → Nat := fun _ => 0
  q_ptr_access_value : Nat := 0
deriving DecidableEq, Inhabited

/-- Modelled from the spec: `AffinePoint::from_words_le` (not under src/)
decodes a little-endian array of eight 32-bit words into one big
integer. -/
def wordsLEBigUint (w : Fin 8 → Nat) : Nat :=
  ∑ i : Fin 8, w i * 2 ^ (32 * i.val)

/-- The first eight words of a sixteen-word point encoding: the x
coordinate. -/
def pointXWords (w : Fin 16 → Nat) : Fin 8 → Nat :=
  fun i => w ⟨i.val, by have := i.isLt; omega⟩

/-- The last eight words of a sixteen-word point encoding: the y
coordinate. -/
def pointYWords (w : Fin 16 → Nat) : Fin 8 → Nat :=
  fun i => w ⟨8 + i.val, by have := i.isLt; omega⟩

namespace WeierstrassAddAssignChip

/-- `WeierstrassAddAssignChip::populate_field_ops`
(`weierstrass_add.rs` lines 87-142): the chained field-operation
populates computing `slope = (q.y - p.y) / (q.x - p.x)`,
`x3 = slope ^ 2 - (p.x + q.x)` and `y3 = slope * (p.x - x3) - p.y`
modulo the curve's base-field modulus `m`, each in source order. -/
def populate_field_ops (m : Nat) (p_x p_y q_x q_y : Nat) : WAddFieldCols :=
  let slope_numerator := fieldOpPopulate m FieldOperation.Sub q_y p_y
  let slope_denominator := fieldOpPopulate m FieldOperation.Sub q_x p_x
  let slope := fieldOpPopulate m FieldOperation.Div slope_numerator slope_denominator
  let slope_squared := fieldOpPopulate m FieldOperation.Mul slope slope
  let p_x_plus_q_x := fieldOpPopulate m FieldOperation.Add p_x q_x
  let x3_ins := fieldOpPopulate m FieldOperation.Sub slope_squared p_x_plus_q_x
  let p_x_minus_x := fieldOpPopulate m FieldOperation.Sub p_x x3_ins
  let slope_times_p_x_minus_x := fieldOpPopulate m FieldOperation.Mul slope p_x_minus_x
  let y3_ins := fieldOpPopulate m FieldOperation.Sub slope_times_p_x_minus_x p_y
  { slope_denominator := slope_denominator
    slope_numerator := slope_numerator
    slope := slope
    slope_squared := slope_squared
    p_x_plus_q_x := p_x_plus_q_x
    x3_ins := x3_ins
    p_x_minus_x := p_x_minus_x
    y3_ins := y3_ins
    slope_times_p_x_minus_x := slope_times_p_x_minus_x }

/-- The real row that `WeierstrassAddAssignChip::generate_trace` pushes
for one event (`weierstrass_add.rs` lines 161-193): basic columns, the
field-operation chain on the decoded points, and the memory-access
value columns copied from the event's records. -/
def realRow (m : Nat) (ev : WAddEvent) : WAddTraceRow :=
  { is_real := 1
    shard := ev.shard
    clk := ev.clk
    p_ptr := ev.p_ptr
    q_ptr := ev.q_ptr
    fieldCols := populate_field_ops m
      (wordsLEBigUint (pointXWords ev.p)) (wordsLEBigUint (pointYWords ev.p))
      (wordsLEBigUint (pointXWords ev.q)) (wordsLEBigUint (pointYWords ev.q))
    p_access_values := ev.p_memory_values
    q_access_values := ev.q_memory_values
    q_ptr_access_value := ev.q_ptr_value }

/-- A padding row of the Weierstrass-add trace
(`weierstrass_add.rs` lines 197-203): a zero row on which
`populate_field_ops` ran with the all-zero point tuple. -/
def padRow (m : Nat) : WAddTraceRow :=
  { fieldCols := populate_field_ops m 0 0 0 0 }

/-- `WeierstrassAddAssignChip::generate_trace` at the level of rows: one
real row per event, padded with all-zero-tuple rows by the `pad_rows`
helper. -/
def generate_trace (m : Nat) (evs : List WAddEvent) : List WAddTraceRow :=
  let rows := evs.map (realRow m)
  rows ++ List.replicate (padRowsTarget rows.length - rows.length) (padRow m)

end WeierstrassAddAssignChip

/-- The symbolic row values of the Weierstrass-add chip that its
constraint relation `WeierstrassAddAssignChip::eval` reads in lines
305-336: the scalar columns, the limbs of the computed `x3` and `y3`
results, and the post-write value bytes of the sixteen `p_access`
words (four byte lanes each). -/
structure WAddRowVars (F : Type) where
  is_real : F
  shard : F
  clk : F
  p_ptr : F
  q_ptr : F
  x3_result : Fin 32 → F
  y3_result : Fin 32 → F
  p_access_value : Fin 16 → Fin 4 → F

/-- The write-back constraints of `WeierstrassAddAssignChip::eval`
(`weierstrass_add.rs` lines 305-314): for each of the 32 limbs,
`when(is_real)` gated equalities — i.e. products with `is_real` asserted
zero — between `x3_ins.result[i]` and `p_access[i / 4].value()[i % 4]`,
and between `y3_ins.result[i]` and `p_access[8 + i / 4].value()[i % 4]`. -/
def wAddResultConstraints {F : Type} [CommRing F] (row : WAddRowVars F) : Prop :=
  ∀ i : Fin 32,
    row.is_real * (row.x3_result i -
      row.p_access_value ⟨i.val / 4, by have := i.isLt; omega⟩
        ⟨i.val % 4, by have := i.isLt; omega⟩) = 0 ∧
    row.is_real * (row.y3_result i -
      row.p_access_value ⟨8 + i.val / 4, by have := i.isLt; omega⟩
        ⟨i.val % 4, by have := i.isLt; omega⟩) = 0

/-- Modelled from the spec: the host register file is numbered
`X0 .. X31`; `Register::X11` (not under src/) is index 11, the register
holding the second operand's pointer. -/
def registerX11 : Nat := 11

/-- The arguments of one single-word memory-access constraint emitted by
a chip (shard, clock, register index, enabling flag; the record itself
feeds the external memory-ordering argument). -/
structure MemorySingleAccessArgs (F : Type) where
  shard : F
  clk : F
  reg : F
  enabled : F

/-- The arguments of one multi-word slice memory-access constraint
emitted by a chip (shard, clock, base pointer, enabling flag). -/
structure MemorySliceAccessArgs (F : Type) where
  shard : F
  clk : F
  ptr : F
  enabled : F

/-- The single-word memory-access constraint for Q's pointer register
issued by `WeierstrassAddAssignChip::eval` (`weierstrass_add.rs` lines
316-322): shard, the row clock with no offset, the fixed register index
`Register::X11`, gated by `is_real`. -/
def wAddQPtrAccess {F : Type} [CommRing F] (row : WAddRowVars F) : MemorySingleAccessArgs F :=
  { shard := row.shard
    clk := row.clk
    reg := (registerX11 : F)
    enabled := row.is_real }

/-- The slice memory-access constraint for Q's point words issued by
`WeierstrassAddAssignChip::eval` (lines 323-329): shard, the row clock
with no offset, base pointer `q_ptr`, gated by `is_real`. -/
def wAddQSliceAccess {F : Type} [CommRing F] (row : WAddRowVars F) : MemorySliceAccessArgs F :=
  { shard := row.shard
    clk := row.clk
    ptr := row.q_ptr
    enabled := row.is_real }

/-- The slice memory-access constraint for P's point words issued by
`WeierstrassAddAssignChip::eval` (lines 330-336): shard, the row clock
plus the fixed extra-cycle offset `4`, base pointer `p_ptr`, gated by
`is_real`. -/
def wAddPSliceAccess {F : Type} [CommRing F] (row : WAddRowVars F) : MemorySliceAccessArgs F :=
  { shard := row.shard
    clk := row.clk + (4 : F)
    ptr := row.p_ptr
    enabled := row.is_real }

/-- The all-zero six-word input of the mixing round. -/
def gZeroInput : Fin 6 → Nat := fun _ => 0

/-- A sample six-word input of the mixing round. -/
def gSampleInput : Fin 6 → Nat := ![1, 2, 3, 4, 5, 6]

/-- A sample four-byte word. -/
def sampleBytes : Fin 4 → Nat := ![1, 2, 3, 4]

/-- A ShaExtend event whose memory-write records claim the word `1` was
written in every round, although the extension of its all-zero read
words is `0`: its written values disagree with the reference
message-schedule step. -/
def shaBadEvent : ShaExtendEvent :=
  { shard := 0
    clk := 0
    w_ptr := 0
    w_i_minus_15_reads := fun _ => 0
    w_i_minus_2_reads := fun _ => 0
    w_i_minus_16_reads := fun _ => 0
    w_i_minus_7_reads := fun _ => 0
    w_i_writes := fun _ => 1 }

/-- A concrete symbolic row over the integers: enabled (`is_real = 1`)
with all other columns zero. -/
def wAddUnitRow : WAddRowVars Int :=
  { is_real := 1
    shard := 0
    clk := 0
    p_ptr := 0
    q_ptr := 0
    x3_result := fun _ => 0
    y3_result := fun _ => 0
    p_access_value := fun _ _ => 0 }

theorem rustNextPowerOfTwoGo_isPowerOfTwo (fuel n : Nat) :
    ∀ power : Nat, power.isPowerOfTwo → (rustNextPowerOfTwoGo fuel n power).isPowerOfTwo := by
  induction fuel with
  | zero => intro power h; simpa [rustNextPowerOfTwoGo] using h
  | succ f ih =>
    intro power h
    simp only [rustNextPowerOfTwoGo]
    split
    · exact ih _ (Nat.mul2_isPowerOfTwo_of_isPowerOfTwo h)
    · exact h

theorem le_rustNextPowerOfTwoGo (fuel n : Nat) :
    ∀ power : Nat, n ≤ power * 2 ^ fuel → n ≤ rustNextPowerOfTwoGo fuel n power := by
  induction fuel with
  | zero => intro power h; simpa [rustNextPowerOfTwoGo] using h
  | succ f ih =>
    intro power h
    simp only [rustNextPowerOfTwoGo]
    split
    · refine ih _ ?_
      calc n ≤ power * 2 ^ (f + 1) := h
        _ = power * 2 * 2 ^ f := by ring
    · omega

theorem rustNextPowerOfTwo_isPowerOfTwo (n : Nat) :
    (rustNextPowerOfTwo n).isPowerOfTwo :=
  rustNextPowerOfTwoGo_isPowerOfTwo n n 1 Nat.one_isPowerOfTwo

theorem le_rustNextPowerOfTwo (n : Nat) : n ≤ rustNextPowerOfTwo n :=
  le_rustNextPowerOfTwoGo n n 1 (by simpa using Nat.le_of_lt (Nat.lt_two_pow n))

theorem padCount_isPowerOfTwo (n : Nat) : (padCount n).isPowerOfTwo := by
  unfold padCount
  split
  · exact ⟨2, rfl⟩
  · exact rustNextPowerOfTwo_isPowerOfTwo n

theorem four_le_padCount (n : Nat) : 4 ≤ padCount n := by
  unfold padCount
  split
  · omega
  · next h =>
    obtain ⟨k, hk⟩ := rustNextPowerOfTwo_isPowerOfTwo n
    match k, hk with
    | 0, hk => omega
    | 1, hk => omega
    | k + 2, hk =>
      rw [hk]
      calc (4 : Nat) = 2 ^ 2 := rfl
        _ ≤ 2 ^ (k + 2) := Nat.pow_le_pow_right (by omega) (by omega)

theorem le_padCount (n : Nat) : n ≤ padCount n := by
  have h := le_rustNextPowerOfTwo n
  unfold padCount
  split
  · omega
  · exact h

theorem padRowsTarget_isPowerOfTwo (n : Nat) : (padRowsTarget n).isPowerOfTwo := by
  unfold padRowsTarget
  rcases Nat.le_total (rustNextPowerOfTwo n) 4 with h | h
  · rw [Nat.max_eq_right h]; exact ⟨2, rfl⟩
  · rw [Nat.max_eq_left h]; exact rustNextPowerOfTwo_isPowerOfTwo n

theorem four_le_padRowsTarget (n : Nat) : 4 ≤ padRowsTarget n :=
  Nat.le_max_right _ _

theorem le_padRowsTarget (n : Nat) : n ≤ padRowsTarget n :=
  Nat.le_trans (le_rustNextPowerOfTwo n) (Nat.le_max_left _ _)

theorem length_sha_realRows (evs : List ShaExtendEvent) :
    (ShaExtendChip.realRows evs).length = 48 * evs.length := by
  induction evs with
  | nil => rfl
  | cons e t ih =>
    simp only [ShaExtendChip.realRows, List.flatMap_cons, List.length_append,
      List.length_map, List.length_finRange, List.length_cons] at ih ⊢
    omega

theorem length_sha_generate_trace (evs : List ShaExtendEvent) :
    (ShaExtendChip.generate_trace evs).length = padCount (48 * evs.length) := by
  have h1 := length_sha_realRows evs
  have h2 := le_padCount (48 * evs.length)
  simp only [ShaExtendChip.generate_trace, List.length_append, List.length_map,
    List.length_range', h1]
  omega

theorem length_wadd_generate_trace (m : Nat) (evs : List WAddEvent) :
    (WeierstrassAddAssignChip.generate_trace m evs).length = padRowsTarget evs.length := by
  have h2 := le_padRowsTarget evs.length
  simp only [WeierstrassAddAssignChip.generate_trace, List.length_append, List.length_map,
    List.length_replicate]
  omega

/-- C10: the additional degree-3 constraint asserted on the enabling flag
at the end of `GOperation::eval` (`is_real * is_real * is_real -
is_real * is_real * is_real`) is identically zero: it holds for every
possible value of the flag, in any commutative ring of row values, and
so imposes no semantic restriction on any row. -/
theorem g_degree3_constraint_identically_zero {F : Type} [CommRing F] (isReal : F) :
    gDegree3Constraint isReal = 0 :=
  sub_self _

/-- C2: if the write-back constraints emitted by
`WeierstrassAddAssignChip::eval` all hold on a row and the row has
`is_real = 1`, then every limb of the computed `x3` result equals the
corresponding limb of the updated (post-write) memory value in P's
pointer region, and likewise for every limb of `y3`. -/
theorem wadd_result_written_to_p_memory {F : Type} [CommRing F] (row : WAddRowVars F)
    (hc : wAddResultConstraints row) (hone : row.is_real = 1) (i : Fin 32) :
    row.x3_result i =
      row.p_access_value ⟨i.val / 4, by have := i.isLt; omega⟩
        ⟨i.val % 4, by have := i.isLt; omega⟩ ∧
    row.y3_result i =
      row.p_access_value ⟨8 + i.val / 4, by have := i.isLt; omega⟩
        ⟨i.val % 4, by have := i.isLt; omega⟩ := by
  obtain ⟨h1, h2⟩ := hc i
  rw [hone, one_mul] at h1 h2
  exact ⟨sub_eq_zero.mp h1, sub_eq_zero.mp h2⟩

theorem wadd_result_written_to_p_memory_witness :
    wAddUnitRow.x3_result 0 =
      wAddUnitRow.p_access_value ⟨0 / 4, by omega⟩ ⟨0 % 4, by omega⟩ ∧
    wAddUnitRow.y3_result 0 =
      wAddUnitRow.p_access_value ⟨8 + 0 / 4, by omega⟩ ⟨0 % 4, by omega⟩ :=
  wadd_result_written_to_p_memory wAddUnitRow
    (fun i => ⟨by simp [wAddUnitRow], by simp [wAddUnitRow]⟩) rfl 0

/-- C8: `WeierstrassAddAssignChip::eval` issues the memory-access
constraint for Q's pointer at the event's base clock against the fixed
register index `X11 = 11`, the slice constraint for Q's point words at
the base clock, and the slice constraint for P's point words at the
base clock plus the fixed extra-cycle offset `4`. -/
theorem wadd_memory_access_clocking {F : Type} [CommRing F] (row : WAddRowVars F) :
    (wAddQPtrAccess row).clk = row.clk ∧
    (wAddQPtrAccess row).reg = ((registerX11 : Nat) : F) ∧
    (wAddQSliceAccess row).clk = row.clk ∧
    (wAddQSliceAccess row).ptr = row.q_ptr ∧
    (wAddPSliceAccess row).clk = row.clk + 4 ∧
    (wAddPSliceAccess row).ptr = row.p_ptr :=
  ⟨rfl, rfl, rfl, rfl, rfl, rfl⟩

/-- C1: for every input of six 32-bit words, `GOperation::populate`
returns the four words obtained by executing the two identical
four-step half-rounds `a = a + b + x; d = rotr(d xor a, 16);
c = c + d; b = rotr(b xor c, 12)` and then the same with `y` and
rotation amounts `8` and `7`, where `+` is 32-bit wraparound
addition. -/
theorem g_populate_two_half_rounds (input : Fin 6 → Nat) (h : ∀ i, input i < W32) :
    GOperation.populate input = gSpecRounds input := by
  funext i
  simp only [GOperation.populate, gSpecRounds, gSpecHalfRound, addPopulate, xorPopulate,
    fixedRotateRightPopulate, Nat.add_assoc, Nat.mod_add_mod]

theorem g_populate_two_half_rounds_witness :
    (∀ i, gSampleInput i < W32) ∧
    GOperation.populate gSampleInput = gSpecRounds gSampleInput :=
  ⟨by decide, g_populate_two_half_rounds gSampleInput (by decide)⟩

/-- C3: `GOperation::populate` asserts its computed output against the
reference implementation `g_func`: a result is only ever produced when
it agrees with `g_func` (a mismatch aborts generation instead of
producing a trace), and for this circuit the assertion in fact always
passes, the chained gadgets computing exactly `g_func`. -/
theorem g_populate_asserts_reference (input : Fin 6 → Nat) :
    (∀ r, GOperation.populateChecked input = some r → r = g_func input) ∧
    GOperation.populateChecked input = some (GOperation.populate input) := by
  have hpg : GOperation.populate input = g_func input := rfl
  constructor
  · intro r hr
    simp only [GOperation.populateChecked, if_pos hpg] at hr
    rw [← Option.some.inj hr]
    exact hpg
  · simp only [GOperation.populateChecked, if_pos hpg]

theorem g_populate_asserts_reference_witness :
    GOperation.populate gZeroInput = g_func gZeroInput :=
  (g_populate_asserts_reference gZeroInput).1 (GOperation.populate gZeroInput)
    (g_populate_asserts_reference gZeroInput).2

/-- C7: the byte-lane reindexings used by `GOperation::eval` for the
rotations by 16 and by 8 bits agree with the 32-bit `rotate_right` used
by `GOperation::populate`: for a word with little-endian bytes
`[b0, b1, b2, b3]`, the word `[b2, b3, b0, b1]` is the word rotated
right by 16 bits and `[b1, b2, b3, b0]` is the word rotated right by 8
bits. -/
theorem byte_rotations_match_rotate_right (w : Fin 4 → Nat) (h : ∀ i, w i < 256) :
    wordLEValue (byteRotate16 w) = rotr32 (wordLEValue w) 16 ∧
    wordLEValue (byteRotate8 w) = rotr32 (wordLEValue w) 8 := by
  have h0 := h 0
  have h1 := h 1
  have h2 := h 2
  have h3 := h 3
  constructor <;>
  · norm_num [wordLEValue, byteRotate16, byteRotate8, rotr32, W32]
    omega

theorem byte_rotations_match_rotate_right_witness :
    (∀ i, sampleBytes i < 256) ∧
    wordLEValue (byteRotate16 sampleBytes) = rotr32 (wordLEValue sampleBytes) 16 ∧
    wordLEValue (byteRotate8 sampleBytes) = rotr32 (wordLEValue sampleBytes) 8 :=
  ⟨by decide, byte_rotations_match_rotate_right sampleBytes (by decide)⟩

/-- C5: for every input execution record — including one with zero
events — the number of rows of the trace matrix returned by
`generate_trace` is a power of two and at least 4, for both the
ShaExtend chip and the WeierstrassAdd chip. -/
theorem trace_row_count_power_of_two_min_four :
    (∀ evs : List ShaExtendEvent,
      ((ShaExtendChip.generate_trace evs).length).isPowerOfTwo ∧
      4 ≤ (ShaExtendChip.generate_trace evs).length) ∧
    (∀ (m : Nat) (evs : List WAddEvent),
      ((WeierstrassAddAssignChip.generate_trace m evs).length).isPowerOfTwo ∧
      4 ≤ (WeierstrassAddAssignChip.generate_trace m evs).length) := by
  constructor
  · intro evs
    rw [length_sha_generate_trace]
    exact ⟨padCount_isPowerOfTwo _, four_le_padCount _⟩
  · intro m evs
    rw [length_wadd_generate_trace]
    exact ⟨padRowsTarget_isPowerOfTwo _, four_le_padRowsTarget _⟩

theorem sha_realRows_is_real (evs : List ShaExtendEvent) :
    ∀ r ∈ ShaExtendChip.realRows evs, r.is_real = 1 := by
  intro r hr
  simp only [ShaExtendChip.realRows, List.mem_flatMap, List.mem_map] at hr
  obtain ⟨ev, hev, j, hj, rfl⟩ := hr
  rfl

theorem sha_padRows_is_real (n k : Nat) :
    ∀ r ∈ (List.range' n k).map ShaExtendChip.padRow, r.is_real = 0 := by
  intro r hr
  simp only [List.mem_map] at hr
  obtain ⟨i, hi, rfl⟩ := hr
  rfl

theorem wadd_realRows_is_real (m : Nat) (evs : List WAddEvent) :
    ∀ r ∈ evs.map (WeierstrassAddAssignChip.realRow m), r.is_real = 1 := by
  intro r hr
  simp only [List.mem_map] at hr
  obtain ⟨ev, hev, rfl⟩ := hr
  rfl

theorem wadd_padRows_is_real (m k : Nat) :
    ∀ r ∈ List.replicate k (WeierstrassAddAssignChip.padRow m), r.is_real = 0 := by
  intro r hr
  rw [List.eq_of_mem_replicate hr]
  rfl

/-- C6: in every trace matrix produced by `generate_trace`, the
`is_real` column is 0 or 1 on every row; the number of rows with
`is_real = 1` equals the number of real sub-events (48 per
message-schedule-extension event, 1 per curve-addition event); and all
rows after the real rows have `is_real = 0`. -/
theorem is_real_flag_inventory :
    (∀ evs : List ShaExtendEvent,
      (∀ r ∈ ShaExtendChip.generate_trace evs, r.is_real = 0 ∨ r.is_real = 1) ∧
      (ShaExtendChip.generate_trace evs).countP (fun r => r.is_real == 1) =
        48 * evs.length ∧
      ∀ r ∈ (ShaExtendChip.generate_trace evs).drop (48 * evs.length), r.is_real = 0) ∧
    (∀ (m : Nat) (evs : List WAddEvent),
      (∀ r ∈ WeierstrassAddAssignChip.generate_trace m evs, r.is_real = 0 ∨ r.is_real = 1) ∧
      (WeierstrassAddAssignChip.generate_trace m evs).countP (fun r => r.is_real == 1) =
        evs.length ∧
      ∀ r ∈ (WeierstrassAddAssignChip.generate_trace m evs).drop evs.length,
        r.is_real = 0) := by
  constructor
  · intro evs
    have hreal := sha_realRows_is_real evs
    have htr : ShaExtendChip.generate_trace evs =
        ShaExtendChip.realRows evs ++
          (List.range' (ShaExtendChip.realRows evs).length
            (padCount (ShaExtendChip.realRows evs).length -
              (ShaExtendChip.realRows evs).length)).map ShaExtendChip.padRow := rfl
    refine ⟨?_, ?_, ?_⟩
    · intro r hr
      rw [htr, List.mem_append] at hr
      rcases hr with hr | hr
      · exact Or.inr (hreal r hr)
      · exact Or.inl (sha_padRows_is_real _ _ r hr)
    · rw [htr, List.countP_append]
      have h1 : (ShaExtendChip.realRows evs).countP (fun r => r.is_real == 1) =
          (ShaExtendChip.realRows evs).length :=
        List.countP_eq_length.mpr fun r hr => by simp [hreal r hr]
      have h2 : ((List.range' (ShaExtendChip.realRows evs).length
          (padCount (ShaExtendChip.realRows evs).length -
            (ShaExtendChip.realRows evs).length)).map ShaExtendChip.padRow).countP
          (fun r => r.is_real == 1) = 0 :=
        List.countP_eq_zero.mpr fun r hr => by simp [sha_padRows_is_real _ _ r hr]
      rw [h1, h2, length_sha_realRows]
      omega
    · rw [htr, ← length_sha_realRows evs, List.drop_left]
      exact sha_padRows_is_real _ _
  · intro m evs
    have hreal := wadd_realRows_is_real m evs
    have hlen : (evs.map (WeierstrassAddAssignChip.realRow m)).length = evs.length := by
      simp
    have htr : WeierstrassAddAssignChip.generate_trace m evs =
        evs.map (WeierstrassAddAssignChip.realRow m) ++
          List.replicate
            (padRowsTarget (evs.map (WeierstrassAddAssignChip.realRow m)).length -
              (evs.map (WeierstrassAddAssignChip.realRow m)).length)
            (WeierstrassAddAssignChip.padRow m) := rfl
    refine ⟨?_, ?_, ?_⟩
    · intro r hr
      rw [htr, List.mem_append] at hr
      rcases hr with hr | hr
      · exact Or.inr (hreal r hr)
      · exact Or.inl (wadd_padRows_is_real _ _ r hr)
    · rw [htr, List.countP_append]
      have h1 : (evs.map (WeierstrassAddAssignChip.realRow m)).countP
          (fun r => r.is_real == 1) =
          (evs.map (WeierstrassAddAssignChip.realRow m)).length :=
        List.countP_eq_length.mpr fun r hr => by simp [hreal r hr]
      have h2 : (List.replicate
          (padRowsTarget (evs.map (WeierstrassAddAssignChip.realRow m)).length -
            (evs.map (WeierstrassAddAssignChip.realRow m)).length)
          (WeierstrassAddAssignChip.padRow m)).countP (fun r => r.is_real == 1) = 0 :=
        List.countP_eq_zero.mpr fun r hr => by simp [wadd_padRows_is_real _ _ r hr]
      rw [h1, h2, hlen]
      omega
    · rw [htr, ← hlen, List.drop_left]
      exact wadd_padRows_is_real _ _

theorem is_real_flag_inventory_witness :
    (ShaExtendChip.padRow 0).is_real = 0 ∨ (ShaExtendChip.padRow 0).is_real = 1 :=
  (is_real_flag_inventory.1 []).1 (ShaExtendChip.padRow 0) (by decide)

/-- C4 counterexample: `ShaExtendChip::generate_trace` performs no
cross-check of its populated values against a reference functional
specification.  On an event whose write records claim the word `1` was
written although the reference extension of its all-zero read words is
`0`, trace generation completes (64 rows) and emits a real first row
carrying the mismatching written word, rather than failing. -/
theorem sha_trace_mismatch_not_fatal :
    (ShaExtendChip.generate_trace [shaBadEvent]).length = 64 ∧
    (ShaExtendChip.generate_trace [shaBadEvent]).headI.is_real = 1 ∧
    (ShaExtendChip.generate_trace [shaBadEvent]).headI.w_i = 1 ∧
    (ShaExtendChip.generate_trace [shaBadEvent]).headI.s2 = 0 ∧
    shaReferenceExtend 0 0 0 0 = 0 ∧
    (ShaExtendChip.generate_trace [shaBadEvent]).headI.w_i ≠ shaReferenceExtend 0 0 0 0 := by
  decide

/-- C4 amended: only the composite round gadget (`GOperation::populate`)
asserts a cross-check against a reference implementation;
`ShaExtendChip::generate_trace` and
`WeierstrassAddAssignChip::generate_trace` assert no cross-check while
scanning their event lists: they always complete with the full padded
row count, the ShaExtend rows carry the event's written word unchecked
next to the independently populated extension value, and the
WeierstrassAdd rows carry the event's post-write memory values
unchecked. -/
theorem trace_generation_has_no_reference_cross_check :
    (∀ evs : List ShaExtendEvent,
      (ShaExtendChip.generate_trace evs).length = padCount (48 * evs.length)) ∧
    (∀ (ev : ShaExtendEvent) (j : Fin 48),
      (ShaExtendChip.realRow ev j).w_i = ev.w_i_writes j ∧
      (ShaExtendChip.realRow ev j).s2 =
        shaReferenceExtend (ev.w_i_minus_15_reads j) (ev.w_i_minus_2_reads j)
          (ev.w_i_minus_16_reads j) (ev.w_i_minus_7_reads j)) ∧
    (∀ (m : Nat) (evs : List WAddEvent),
      (WeierstrassAddAssignChip.generate_trace m evs).length = padRowsTarget evs.length) ∧
    (∀ (m : Nat) (ev : WAddEvent),
      (WeierstrassAddAssignChip.realRow m ev).p_access_values = ev.p_memory_values) :=
  ⟨length_sha_generate_trace, fun _ _ => ⟨rfl, rfl⟩,
    length_wadd_generate_trace, fun _ _ => rfl⟩

/-- C9: the padding rows of the WeierstrassAdd chip run the same
field-operation chain as real rows on the all-zero point tuple; the Div
gadget's witness generation yields the defined deterministic value `0`
for the resulting `0 / 0` slope instead of failing, every chained
result is the determined value `0`, and `generate_trace` on an empty
record completes, producing exactly the four padding rows. -/
theorem wadd_padding_division_by_zero_defined (m : Nat) :
    (WeierstrassAddAssignChip.padRow m).fieldCols =
      WeierstrassAddAssignChip.populate_field_ops m 0 0 0 0 ∧
    fieldOpPopulate m FieldOperation.Div 0 0 = 0 ∧
    (WeierstrassAddAssignChip.padRow m).fieldCols.slope = 0 ∧
    (WeierstrassAddAssignChip.padRow m).fieldCols.x3_ins = 0 ∧
    (WeierstrassAddAssignChip.padRow m).fieldCols.y3_ins = 0 ∧
    WeierstrassAddAssignChip.generate_trace m [] =
      List.replicate 4 (WeierstrassAddAssignChip.padRow m) := by
  refine ⟨rfl, ?_, ?_, ?_, ?_, rfl⟩ <;>
    simp [WeierstrassAddAssignChip.padRow, WeierstrassAddAssignChip.populate_field_ops,
      fieldOpPopulate, Nat.mod_self, Nat.zero_mod]

end SP1
